import Mathlib

/-
Verification of the probepal markdown round-trip pipeline.

The embedding below models, in Lean, the core text-processing functions of
`src/components/EditableMarkdown.tsx` (table extraction, find/replace, export
substitution), the toggle component state of `TableChartToggle`
(`src/unnamed/part_014`), the chart-instance registry events, and the chart
dimension math of the file-conversion module (`src/unnamed/part_007`).

JS strings are modelled as `List Char` with character offsets, and JS numbers
appearing in table cells as `ℚ` (the exercised values are small integers and
decimals, exact in both models).
-/

/-- Character strings of the JS source, modelled as lists of characters. -/
abbrev Str := List Char

/-- JS whitespace (the ASCII portion): space, tab, newline, carriage return,
vertical tab, form feed.  Used by `String.prototype.trim` and by the regex
class `\s`. -/
def jsWhitespace (c : Char) : Bool :=
  c = ' ' || c = '\t' || c = '\n' || c = '\r' || c = '\x0b' || c = '\x0c'

/-- The regex character class `[\s:-]` used in the table-separator pattern. -/
def sepClassChar (c : Char) : Bool :=
  jsWhitespace c || c = ':' || c = '-'

/-- JS `String.prototype.trim`: strip whitespace from both ends. -/
def trimChars (s : Str) : Str :=
  ((s.dropWhile (fun c => jsWhitespace c)).reverse.dropWhile
    (fun c => jsWhitespace c)).reverse

/-- JS `String.prototype.split(c)` for a single-character separator: every
occurrence of the separator splits, empty pieces included. -/
def splitOnChar (c : Char) : Str → List Str
  | [] => [[]]
  | x :: xs =>
    if x = c then
      [] :: splitOnChar c xs
    else
      match splitOnChar c xs with
      | [] => [[x]]
      | p :: ps => (x :: p) :: ps

/-- The needle occurs in `text` at character offset `j` (case-sensitive,
exact substring match). -/
def OccursAt (text needle : Str) (j : Nat) : Prop :=
  (text.drop j).take needle.length = needle

instance (text needle : Str) (j : Nat) : Decidable (OccursAt text needle j) := by
  unfold OccursAt; infer_instance

/-- One step of JS `String.prototype.indexOf(needle, j)`: scan forward from
offset `j`, returning the first offset where the needle occurs.  `fuel`
bounds the scan; `jsIndexOf` supplies enough fuel to reach the end of the
text, matching the JS result exactly. -/
def jsIndexOfGo (text needle : Str) : Nat → Nat → Option Nat
  | 0, _ => none
  | fuel + 1, j =>
    if (text.drop j).take needle.length = needle then some j
    else jsIndexOfGo text needle fuel (j + 1)

/-- JS `text.indexOf(needle, start)` (result `-1` modelled as `none`). -/
def jsIndexOf (text needle : Str) (start : Nat) : Option Nat :=
  jsIndexOfGo text needle (text.length + 1 - start) start

/-- The scanning loop of `findAllOccurrences` (EditableMarkdown.tsx lines
81–89): record the match offset, then continue the search from the previous
offset **plus one** (`text.indexOf(searchStr, pos + 1)`). -/
def findAllGo (text needle : Str) : Nat → Nat → List Nat
  | 0, _ => []
  | fuel + 1, start =>
    match jsIndexOf text needle start with
    | none => []
    | some p => p :: findAllGo text needle fuel (p + 1)

/-- `findAllOccurrences(text, searchStr)` of EditableMarkdown.tsx lines
78–90: empty needles yield no matches; otherwise collect the offsets of the
`indexOf` scan resumed at each previous offset plus one. -/
def findAllOccurrences (text needle : Str) : List Nat :=
  if needle = [] then [] else findAllGo text needle (text.length + 1) 0

/-- The find/replace session state of the Editable Document Controller:
raw text, needle, replacement, the computed match offsets and the index of
the active match. -/
structure FindState where
  content : Str
  findText : Str
  replaceText : Str
  matchOffsets : List Nat
  currentMatch : Nat
deriving DecidableEq

/-- `replaceCurrent` of EditableMarkdown.tsx lines 140–176: substitute the
replacement for the active match only, then recompute the whole match list
against the new text and clamp the active index.  With no matches it is a
no-op.  (Out-of-range active indices do not arise in the UI; the model reads
the active offset with a default of 0.) -/
def replaceCurrent (s : FindState) : FindState :=
  if s.matchOffsets = [] then s
  else
    let startPos := s.matchOffsets.getD s.currentMatch 0
    let newContent :=
      s.content.take startPos ++ s.replaceText ++
        s.content.drop (startPos + s.findText.length)
    let newMatches := findAllOccurrences newContent s.findText
    let newCurrent :=
      if newMatches.length ≤ s.currentMatch then
        max 0 (newMatches.length - 1)
      else s.currentMatch
    ⟨newContent, s.findText, s.replaceText, newMatches, newCurrent⟩

/-- Digit run to a natural number (base 10). -/
def digitsToNat (ds : Str) : Nat :=
  ds.foldl (fun n c => n * 10 + (c.toNat - ('0').toNat)) 0

/-- Exponent part of a JS numeric literal, after the `e`/`E`: optional sign
then at least one digit.  Returns success flag, exponent value, rest. -/
def jsExpPart (r : Str) : Bool × ℤ × Str :=
  let p : ℤ × Str :=
    match r with
    | '+' :: q => (1, q)
    | '-' :: q => (-1, q)
    | _ => (1, r)
  let eds := p.2.takeWhile Char.isDigit
  if eds = [] then (false, 0, p.2)
  else (true, p.1 * (digitsToNat eds : ℤ), p.2.dropWhile Char.isDigit)

/-- JS `Number(s)` on the decimal numeral grammar: trims whitespace, empty
becomes `0`, optional sign, digits with optional fraction and optional
exponent, and the whole string must be consumed (else NaN, modelled `none`).
The non-decimal forms (`0x…`, `Infinity`) that `Number` also accepts never
occur in this pipeline's data and are modelled as NaN. -/
def jsNumber (s : Str) : Option ℚ :=
  let t := trimChars s
  if t = [] then some 0
  else
    let sp : ℤ × Str :=
      match t with
      | '+' :: r => (1, r)
      | '-' :: r => (-1, r)
      | _ => (1, t)
    let intDigits := sp.2.takeWhile Char.isDigit
    let t2 := sp.2.dropWhile Char.isDigit
    let fp : Str × Str :=
      match t2 with
      | '.' :: r => (r.takeWhile Char.isDigit, r.dropWhile Char.isDigit)
      | _ => ([], t2)
    if intDigits = [] ∧ fp.1 = [] then none
    else
      let ep : Bool × ℤ × Str :=
        match fp.2 with
        | 'e' :: r => jsExpPart r
        | 'E' :: r => jsExpPart r
        | _ => (true, 0, fp.2)
      if ep.1 = false then none
      else if ep.2.2 ≠ [] then none
      else
        let m : ℤ := (digitsToNat (intDigits ++ fp.1) : ℤ)
        let den : ℕ := 10 ^ fp.1.length
        some (if 0 ≤ ep.2.1 then
            mkRat (sp.1 * m * (10 : ℤ) ^ ep.2.1.toNat) den
          else mkRat (sp.1 * m) (den * 10 ^ ep.2.1.natAbs))

/-- A table cell value: numbers when `Number(value)` is not NaN, otherwise
the trimmed cell text (EditableMarkdown.tsx lines 236–239). -/
inductive Value where
  | num (q : ℚ)
  | str (s : Str)
deriving DecidableEq

/-- The per-cell numeric coercion `isNaN(Number(value)) ? value : Number(value)`. -/
def coerceCell (cell : Str) : Value :=
  match jsNumber cell with
  | some q => Value.num q
  | none => Value.str cell

/-- A row record (`Record<string, any>` in the source): an ordered list of
header/value properties, with JS object semantics (assigning an existing key
overwrites its value in place; a new key is appended). -/
abbrev RowRecord := List (Str × Value)

/-- JS property assignment `rowData[header] = value`. -/
def setKey : RowRecord → Str → Value → RowRecord
  | [], k, v => [(k, v)]
  | (k', v') :: rest, k, v =>
    if k' = k then (k, v) :: rest else (k', v') :: setKey rest k v

/-- The property names of a row record, in order. -/
def rowKeys (r : RowRecord) : List Str := r.map Prod.fst

/-- `headers.forEach((header, index) => rowData[header] = coerce(rowCells[index]))`
starting from the empty object (EditableMarkdown.tsx lines 234–241). -/
def buildRowRecord (headers cells : List Str) : RowRecord :=
  (headers.zip cells).foldl (fun acc hc => setKey acc hc.1 (coerceCell hc.2)) []

/-- A JSON scalar value in a flat chart-options object. -/
inductive JsonVal where
  | jstr (s : Str)
  | jnum (q : ℚ)
deriving DecidableEq

/-- A flat JSON object: ordered key/value pairs. -/
abbrev FlatJson := List (Str × JsonVal)

/-- JSON insignificant whitespace. -/
def jsonSkipWs (s : Str) : Str :=
  s.dropWhile (fun c => c = ' ' || c = '\t' || c = '\n' || c = '\r')

/-- Consume a JSON string body after its opening quote, up to the closing
quote.  (Escape sequences do not occur in the generated chart options and
are not modelled.) -/
def takeJsonString : Str → Option (Str × Str)
  | [] => none
  | '"' :: rest => some ([], rest)
  | c :: rest => (takeJsonString rest).map (fun p => (c :: p.1, p.2))

/-- Characters that can form a JSON number literal. -/
def jsonNumChar (c : Char) : Bool :=
  c.isDigit || c = '-' || c = '+' || c = '.' || c = 'e' || c = 'E'

/-- Parse one JSON scalar (string or number). -/
def parseJsonValue (s : Str) : Option (JsonVal × Str) :=
  match jsonSkipWs s with
  | '"' :: rest => (takeJsonString rest).map (fun p => (JsonVal.jstr p.1, p.2))
  | s' =>
    let numPart := s'.takeWhile jsonNumChar
    if numPart = [] then none
    else
      match jsNumber numPart with
      | some q => some (JsonVal.jnum q, s'.dropWhile jsonNumChar)
      | none => none

/-- Parse the members of a flat JSON object after the opening brace, up to
and including the closing brace. -/
def parseJsonMembers (fuel : Nat) (s : Str) : Option (FlatJson × Str) :=
  match fuel with
  | 0 => none
  | fuel' + 1 =>
    match jsonSkipWs s with
    | '"' :: rest =>
      match takeJsonString rest with
      | none => none
      | some (key, r1) =>
        match jsonSkipWs r1 with
        | ':' :: r2 =>
          match parseJsonValue r2 with
          | none => none
          | some (v, r3) =>
            match jsonSkipWs r3 with
            | ',' :: r4 =>
              match parseJsonMembers fuel' r4 with
              | none => none
              | some (obj, r5) => some ((key, v) :: obj, r5)
            | '}' :: r4 => some ([(key, v)], r4)
            | _ => none
        | _ => none
    | _ => none

/-- `JSON.parse` restricted to the flat objects the chart-options annotation
carries (string or number values; `true`/`false`/`null`, nesting and escape
sequences do not occur there and parse as failure). -/
def parseFlatJson (s : Str) : Option FlatJson :=
  match jsonSkipWs s with
  | '{' :: r =>
    match parseJsonMembers (r.length + 1) r with
    | some (obj, rest) => if jsonSkipWs rest = [] then some obj else none
    | none => none
  | _ => none

/-- Match a literal prefix, returning the rest. -/
def expectLit (lit s : Str) : Option Str :=
  if s.take lit.length = lit then some (s.drop lit.length) else none

/-- Match the annotation regex `<!--\s*chart-options\s*(\{[^}]+\})\s*-->` at
the start of `s`, returning the captured `{...}` text.  The greedy runs of
the pattern are deterministic: each `\s*` run is maximal (the following
literal starts with a non-whitespace character), and `[^}]+` necessarily
stops at the first closing brace. -/
def matchChartOptionsAt (s : Str) : Option Str :=
  match expectLit ("<!--").data s with
  | none => none
  | some r1 =>
    let r2 := r1.dropWhile (fun c => jsWhitespace c)
    match expectLit ("chart-options").data r2 with
    | none => none
    | some r3 =>
      let r4 := r3.dropWhile (fun c => jsWhitespace c)
      match r4 with
      | '{' :: r5 =>
        let body := r5.takeWhile (fun c => c != '}')
        let r6 := r5.dropWhile (fun c => c != '}')
        if body = [] then none
        else
          match r6 with
          | '}' :: r7 =>
            let r8 := r7.dropWhile (fun c => jsWhitespace c)
            match expectLit ("-->").data r8 with
            | none => none
            | some _ => some ('{' :: (body ++ ['}']))
          | _ => none
      | _ => none

/-- `tableMatch.match(/<!--\s*chart-options\s*(\{[^}]+\})\s*-->/)`: the first
position (left to right) where the annotation pattern matches, with its
captured JSON text (EditableMarkdown.tsx line 206). -/
def findChartOptionsGo : Str → Option Str
  | [] => none
  | c :: rest =>
    match matchChartOptionsAt (c :: rest) with
    | some cap => some cap
    | none => findChartOptionsGo rest

/-- Character at offset `i`, or the null character out of range. -/
def charAt (s : Str) (i : Nat) : Char := s.getD i '\x00'

/-- First offset at or after `i` holding character `c`. -/
def findIdxFromChar (s : Str) (c : Char) (i : Nat) : Option Nat :=
  match (s.drop i).findIdx? (fun x => x == c) with
  | some k => some (i + k)
  | none => none

/-- Offset of the first adjacent newline pair in `s`. -/
def findDoubleNL : Str → Option Nat
  | '\n' :: '\n' :: _ => some 0
  | _ :: rest => (findDoubleNL rest).map (fun k => k + 1)
  | [] => none

/-- Match the table regex
`/\|[^\n]*\|[^\n]*\n\|[\s:-]*\|[\s:-]*\|[\s\S]*?(?=\n\n|$)/`
at offset `i`, returning the exclusive end offset of the match.  The
backtracking search of the JS engine is deterministic here: the first line's
`\n` is the first newline after `i` (so the line must hold a second `|`);
each `[\s:-]*` run is maximal and must be followed by a literal `|` (the
pipe is not in the class, so shorter runs cannot help); the trailing lazy
`[\s\S]*?` stops at the first blank line (`\n\n`, left unconsumed by the
lookahead) or at the end of the text. -/
def matchTableAt (s : Str) (i : Nat) : Option Nat :=
  if charAt s i != '|' then none
  else
    match findIdxFromChar s '\n' (i + 1) with
    | none => none
    | some n1 =>
      let line1 := (s.drop (i + 1)).take (n1 - (i + 1))
      if !(line1.contains '|') then none
      else
        let j := n1 + 1
        if charAt s j != '|' then none
        else
          let k1 := j + 1 + ((s.drop (j + 1)).takeWhile sepClassChar).length
          if charAt s k1 != '|' then none
          else
            let k2 := k1 + 1 + ((s.drop (k1 + 1)).takeWhile sepClassChar).length
            if charAt s k2 != '|' then none
            else
              match findDoubleNL (s.drop (k2 + 1)) with
              | some d => some (k2 + 1 + d)
              | none => some s.length

/-- Global regex scan (`markdown.match(/.../g)`): find the leftmost match at
or after offset `i`, record its text, continue at its end. -/
def scanTablesGo (s : Str) : Nat → Nat → List Str
  | 0, _ => []
  | fuel + 1, i =>
    if s.length < i then []
    else
      match matchTableAt s i with
      | some e => ((s.drop i).take (e - i)) :: scanTablesGo s fuel e
      | none => scanTablesGo s fuel (i + 1)

/-- All table-block matches of the markdown, in document order
(EditableMarkdown.tsx line 200). -/
def findTableMatches (s : Str) : List Str :=
  scanTablesGo s (s.length + 1) 0

/-- Split a table row on `|`, drop cells that trim to empty, trim the rest
(EditableMarkdown.tsx lines 219–222 and 228–231).  Note the filter drops
*every* empty cell, interior ones included, not only the edge cells. -/
def parseCells (row : Str) : List Str :=
  ((splitOnChar '|' row).filter (fun c => !(trimChars c).isEmpty)).map trimChars

/-- One extracted table: ordered headers, retained row records, and the
chart-options annotation if one was found inside the matched block and its
JSON parsed (`none` models the untouched `{}` default of the source).  The
source also renders an HTML string from the same headers and rows; that
presentational field is not modelled. -/
structure ExtractedTable where
  headers : List Str
  rows : List RowRecord
  options : Option FlatJson
deriving DecidableEq

/-- Process one matched table block (EditableMarkdown.tsx lines 203–271):
split into non-blank lines, need at least a header and a separator line,
parse the header cells, skip the separator (line index 1), and keep exactly
the data rows whose cell count equals the header count. -/
def processTableMatch (block : Str) : Option ExtractedTable :=
  let options := (findChartOptionsGo block).bind parseFlatJson
  let lines := (splitOnChar '\n' block).filter (fun l => !(trimChars l).isEmpty)
  if 2 ≤ lines.length then
    let headers := parseCells (lines.getD 0 [])
    let dataRows := (lines.drop 2).filterMap (fun line =>
      let cells := parseCells line
      if cells.length = headers.length then some (buildRowRecord headers cells)
      else none)
    some ⟨headers, dataRows, options⟩
  else none

/-- `extractTables` of EditableMarkdown.tsx lines 196–276. -/
def extractTables (md : Str) : List ExtractedTable :=
  (findTableMatches md).filterMap processTableMatch

/-- One mounted table container at export time: its `data-table-index`
attribute (the mount order assigned in document order) and the image data
the capture strategies produced for it, if any (`none` models a container in
table mode or a failed capture — the handler then leaves the text alone). -/
structure ExportItem where
  tableIndex : Nat
  imageData : Option Str
deriving DecidableEq

/-- The image markdown substituted for a captured table's block:
a blank line, `![Chart](<data>)`, a blank line
(EditableMarkdown.tsx lines 446–450). -/
def imageMarkdownFor (img : Str) : Str :=
  ("\n\n![Chart](").data ++ img ++ (")\n\n").data

/-- JS `temp.replace(target, repl)` with string arguments: replace the first
occurrence of `target` only; no occurrence leaves the text unchanged.  (The
`$`-substitution patterns of `String.replace` do not occur in the image
markdown.) -/
def replaceFirstOccurrence (s target repl : Str) : Str :=
  match jsIndexOf s target 0 with
  | none => s
  | some p => s.take p ++ repl ++ s.drop (p + target.length)

/-- One iteration of the export loop (EditableMarkdown.tsx lines 338–466):
if the container produced image data passing the `length > 100` validation,
re-match all table blocks in the *current* scratch text and replace the
first occurrence of the block at this container's stored index; an
out-of-range index leaves the text unchanged (`Table match not found`). -/
def exportSubstituteStep (temp : Str) (item : ExportItem) : Str :=
  match item.imageData with
  | none => temp
  | some img =>
    if 100 < img.length then
      match (findTableMatches temp).get? item.tableIndex with
      | some target => replaceFirstOccurrence temp target (imageMarkdownFor img)
      | none => temp
    else temp

/-- The chart-image substitution pass shared by `handleExportDocx` and
`handleExportPdf`: fold the per-container step over the containers in
document order, starting from a scratch copy of the editable content. -/
def exportSubstitute (content : Str) (items : List ExportItem) : Str :=
  items.foldl exportSubstituteStep content

/-- The Editable Document Controller state the export handlers can reach:
the authoritative markdown text and the document title. -/
structure DocState where
  editableContent : Str
  documentTitle : Str
deriving DecidableEq

/-- `handleExportDocx` (EditableMarkdown.tsx lines 327–476) as a state
transformer: it computes the substituted scratch text handed to the
exporter and leaves the component state untouched (the handler never calls
`setEditableContent`).  `handleExportPdf` (lines 478–627) performs the
identical substitution. -/
def handleExportDocx (s : DocState) (items : List ExportItem) : Str × DocState :=
  (exportSubstitute s.editableContent items, s)

/-- The eight chart kinds of `TableChartToggle` (src/unnamed/part_014 line 9). -/
inductive ChartKind where
  | columnChart | barChart | lineChart | areaChart
  | pieChart | donutChart | scatterChart | comboChart
deriving DecidableEq

/-- Legend positions used by `updateChartOptions`. -/
inductive LegendPos where
  | top | bottom | left | right | none
deriving DecidableEq

/-- The chart-option fields `updateChartOptions` actually sets
(src/unnamed/part_014 lines 296–406); the static style sub-objects it copies
unchanged from the defaults are not modelled. -/
structure ChartOptionsModel where
  width : ℕ
  height : ℕ
  legendPosition : LegendPos
  pieSliceText : Bool
  pieHole : ℚ
  slantedText : Bool
  slantedTextAngle : ℕ
  vAxisMin : Option ℕ
  hAxisTitle : Option Str
  vAxisTitle : Option Str
  curveType : Bool
  pointSize : Option ℕ
  lineWidth : Option ℕ
  areaOpacity : Option ℚ
  seriesTypeBars : Bool
  barGroupWidth : Option ℕ
deriving DecidableEq

/-- A4 printable width available to a chart (part_014 lines 108–114). -/
def AVAILABLE_WIDTH : ℕ := 794 - 2 * 40

/-- A4 printable height available to a chart, capped at 500px. -/
def AVAILABLE_HEIGHT : ℕ := min 500 (1123 - 2 * 40)

/-- The neutral option set before the per-kind switch. -/
def baseChartOptions : ChartOptionsModel :=
  ⟨AVAILABLE_WIDTH, AVAILABLE_HEIGHT, LegendPos.bottom, false, 0, false, 0,
   Option.none, Option.none, Option.none, false, Option.none, Option.none,
   Option.none, false, Option.none⟩

/-- `updateChartOptions(type)` (part_014 lines 296–406): the per-kind switch
over legend position, pie hole, slanted x-labels, zero-clamped value axis,
scatter axis titles, line styling and combo series type. -/
def updateChartOptions (type : ChartKind) (valueColumns : List Str) :
    ChartOptionsModel :=
  match type with
  | ChartKind.pieChart =>
    { baseChartOptions with
        legendPosition := LegendPos.right
        pieSliceText := true
        pieHole := 0 }
  | ChartKind.donutChart =>
    { baseChartOptions with
        legendPosition := LegendPos.right
        pieSliceText := true
        pieHole := mkRat 2 5 }
  | ChartKind.barChart =>
    { baseChartOptions with
        legendPosition := LegendPos.top
        slantedText := false
        slantedTextAngle := 0
        vAxisMin := Option.some 0
        barGroupWidth := Option.some 70 }
  | ChartKind.columnChart =>
    { baseChartOptions with
        legendPosition := LegendPos.top
        slantedText := true
        slantedTextAngle := 45
        vAxisMin := Option.some 0
        barGroupWidth := Option.some 70 }
  | ChartKind.lineChart =>
    { baseChartOptions with
        legendPosition := LegendPos.top
        curveType := true
        pointSize := Option.some 4
        lineWidth := Option.some 2
        vAxisMin := Option.some 0 }
  | ChartKind.areaChart =>
    { baseChartOptions with
        legendPosition := LegendPos.top
        curveType := true
        pointSize := Option.some 4
        lineWidth := Option.some 2
        areaOpacity := Option.some (mkRat 1 5)
        vAxisMin := Option.some 0 }
  | ChartKind.scatterChart =>
    { baseChartOptions with
        legendPosition := LegendPos.none
        pointSize := Option.some 6
        vAxisMin := Option.some 0
        hAxisTitle := valueColumns.get? 0
        vAxisTitle := valueColumns.get? 1 }
  | ChartKind.comboChart =>
    { baseChartOptions with
        legendPosition := LegendPos.top
        seriesTypeBars := true
        vAxisMin := Option.some 0 }

/-- The full state of one mounted `TableChartToggle` (part_014 lines
197–236) together with its mount context: the container's
`data-table-index` (the figure number, assigned in document order by the
mount effect of EditableMarkdown.tsx lines 638–673), the extracted table
data and the static table HTML, none of which any toggle handler writes. -/
structure ToggleState where
  tableIndex : Nat
  tableData : List RowRecord
  tableHtml : Str
  showChart : Bool
  chartType : ChartKind
  selectedLabelColumn : Str
  selectedValueColumns : List Str
  chartOptions : ChartOptionsModel
deriving DecidableEq

/-- The user events the toggle component handles: the Show Chart / Show
Table button, the chart-type select, the label-column select and the
value-column checkboxes (part_014 lines 409–420 and 443–504). -/
inductive ToggleOp where
  | toggleShow
  | setChartType (t : ChartKind)
  | setLabelColumn (c : Str)
  | setValueColumn (c : Str) (checked : Bool)
deriving DecidableEq

/-- One toggle event.  Chart-type, label-column and value-column changes
also re-run `updateChartOptions` (the effect at part_014 lines 225–229). -/
def applyToggleOp (s : ToggleState) : ToggleOp → ToggleState
  | ToggleOp.toggleShow => { s with showChart := !s.showChart }
  | ToggleOp.setChartType t =>
    { s with
        chartType := t
        chartOptions := updateChartOptions t s.selectedValueColumns }
  | ToggleOp.setLabelColumn c =>
    { s with
        selectedLabelColumn := c
        chartOptions := updateChartOptions s.chartType s.selectedValueColumns }
  | ToggleOp.setValueColumn c checked =>
    let cols :=
      if checked then s.selectedValueColumns ++ [c]
      else s.selectedValueColumns.filter (fun x => x ≠ c)
    { s with
        selectedValueColumns := cols
        chartOptions := updateChartOptions s.chartType cols }

/-- A sequence of toggle events applied in order. -/
def applyToggleOps (s : ToggleState) (ops : List ToggleOp) : ToggleState :=
  ops.foldl applyToggleOp s

/-- The Show Chart / Show Table button label (part_014 line 453). -/
def toggleButtonLabel (s : ToggleState) : Str :=
  if s.showChart then ("Show Table").data else ("Show Chart").data

/-- One entry of the global chart registry `window.__chartInstances`,
tagged with the container whose `ready` event pushed it. -/
structure RegEntry where
  owner : Nat
deriving DecidableEq

/-- The registry state: the global array plus the `__chartIndex` expando
stored on each table container (`none` when unset). -/
structure RegState where
  registry : List RegEntry
  containerIdx : Nat → Option Nat

/-- The chart lifecycle events of part_014 lines 524–632: a chart `ready`
callback initialises the registry if absent and pushes exactly one entry;
the 500ms-deferred DOM-walk callback then stores
`window.__chartInstances.length - 1` *as read at that later time* on the
container (`0` when the registry is empty). -/
inductive RegEvent where
  | chartReady (c : Nat)
  | timeoutFire (c : Nat)
deriving DecidableEq

/-- One registry event. -/
def stepRegEvent (s : RegState) : RegEvent → RegState
  | RegEvent.chartReady c => { s with registry := s.registry ++ [⟨c⟩] }
  | RegEvent.timeoutFire c =>
    let idx := if s.registry.length = 0 then 0 else s.registry.length - 1
    { s with containerIdx := fun c' =>
        if c' = c then Option.some idx else s.containerIdx c' }

/-- A trace of registry events applied in order. -/
def applyRegEvents (s : RegState) (es : List RegEvent) : RegState :=
  es.foldl stepRegEvent s

/-- The page-load registry state (`window.__chartInstances` absent, no
container tagged). -/
def initRegState : RegState := ⟨[], fun _ => Option.none⟩

/-- JS `Math.round` (floats in the exercised range round half up). -/
def jsRound (q : ℚ) : ℤ := ⌊q + 1 / 2⌋

/-- `calculateChartDimensions` (src/unnamed/part_007 lines 77–93): clamp the
width to 500, recompute the height from the aspect ratio; if that height
exceeds 400, fix the height at 400 and recompute the width instead. -/
def calculateChartDimensions (originalWidth originalHeight : ℕ) : ℤ × ℤ :=
  let maxHeight : ℤ := 400
  let width : ℤ := min (originalWidth : ℤ) 500
  let height : ℤ :=
    jsRound ((width : ℚ) * ((originalHeight : ℚ) / (originalWidth : ℚ)))
  if maxHeight < height then
    (jsRound ((maxHeight : ℚ) * ((originalWidth : ℚ) / (originalHeight : ℚ))),
     maxHeight)
  else (width, height)

theorem jsIndexOfGo_some (text needle : Str) :
    ∀ fuel j p, jsIndexOfGo text needle fuel j = some p →
      j ≤ p ∧ p < j + fuel ∧ OccursAt text needle p ∧
        ∀ k, j ≤ k → k < p → ¬OccursAt text needle k := by
  intro fuel
  induction fuel with
  | zero => intro j p h; simp [jsIndexOfGo] at h
  | succ n ih =>
    intro j p h
    simp only [jsIndexOfGo] at h
    split at h
    case isTrue hocc =>
      cases h
      exact ⟨le_refl _, by omega, hocc, fun k hk1 hk2 => absurd hk1 (by omega)⟩
    case isFalse hocc =>
      obtain ⟨h1, h2, h3, h4⟩ := ih (j + 1) p h
      refine ⟨by omega, by omega, h3, ?_⟩
      intro k hk1 hk2
      rcases Nat.eq_or_lt_of_le hk1 with rfl | hlt
      · exact hocc
      · exact h4 k hlt hk2

theorem jsIndexOfGo_complete (text needle : Str) :
    ∀ fuel j j', j ≤ j' → j' < j + fuel → OccursAt text needle j' →
      ∃ p, jsIndexOfGo text needle fuel j = some p ∧ p ≤ j' := by
  intro fuel
  induction fuel with
  | zero => intro j j' h1 h2 _; omega
  | succ n ih =>
    intro j j' h1 h2 hocc
    by_cases hj : (text.drop j).take needle.length = needle
    · exact ⟨j, by simp [jsIndexOfGo, hj], h1⟩
    · have hne : j ≠ j' := fun e => hj (e ▸ hocc)
      obtain ⟨p, hp, hple⟩ := ih (j + 1) j' (by omega) (by omega) hocc
      exact ⟨p, by simp [jsIndexOfGo, hj, hp], hple⟩

theorem occursAt_lt_length (text needle : Str) (j : Nat)
    (hne : needle ≠ []) (h : OccursAt text needle j) : j < text.length := by
  have hlen := congrArg List.length h
  simp only [List.length_take, List.length_drop] at hlen
  have hpos : 0 < needle.length := List.length_pos.mpr hne
  omega

theorem findAllGo_sorted_sound (text needle : Str) :
    ∀ fuel start,
      List.Chain' (· < ·) (findAllGo text needle fuel start) ∧
      ∀ x ∈ findAllGo text needle fuel start,
        start ≤ x ∧ OccursAt text needle x := by
  intro fuel
  induction fuel with
  | zero => intro start; simp [findAllGo]
  | succ n ih =>
    intro start
    simp only [findAllGo]
    cases hidx : jsIndexOf text needle start with
    | none => simp
    | some p =>
      have hp : jsIndexOfGo text needle (text.length + 1 - start) start = some p :=
        hidx
      obtain ⟨hsp, _, hocc, _⟩ := jsIndexOfGo_some text needle _ start p hp
      constructor
      · refine List.chain'_cons'.mpr ⟨?_, (ih (p + 1)).1⟩
        intro b hb
        have hbmem := List.mem_of_mem_head? hb
        have := ((ih (p + 1)).2 b hbmem).1
        omega
      · intro x hx
        rcases List.mem_cons.mp hx with rfl | hx'
        · exact ⟨hsp, hocc⟩
        · have := (ih (p + 1)).2 x hx'
          exact ⟨by omega, this.2⟩

theorem findAllGo_complete (text needle : Str) :
    ∀ fuel start j, start ≤ j → j < start + fuel →
      OccursAt text needle j → needle ≠ [] →
      j ∈ findAllGo text needle fuel start := by
  intro fuel
  induction fuel with
  | zero => intro start j h1 h2 _ _; omega
  | succ n ih =>
    intro start j h1 h2 hocc hne
    have hjlt := occursAt_lt_length text needle j hne hocc
    obtain ⟨p, hp, hple⟩ :=
      jsIndexOfGo_complete text needle (text.length + 1 - start) start j h1
        (by omega) hocc
    have hp' : jsIndexOf text needle start = some p := hp
    simp only [findAllGo, hp']
    rcases Nat.eq_or_lt_of_le hple with rfl | hlt
    · exact List.mem_cons_self _ _
    · have hsp : start ≤ p := (jsIndexOfGo_some text needle _ start p hp).1
      exact List.mem_cons_of_mem _ (ih (p + 1) j (by omega) (by omega) hocc hne)

/-- C5 (amended): `findAllOccurrences` returns the offsets of every
case-sensitive substring match, in strictly increasing order — but the
matches may overlap: the scan resumes at the previous offset plus one, not
plus the needle length, so consecutive offsets are only guaranteed to
differ by at least one. -/
theorem C5_find_all_occurrences_amended (text needle : Str) :
    List.Chain' (· < ·) (findAllOccurrences text needle) ∧
    (∀ x ∈ findAllOccurrences text needle, OccursAt text needle x) ∧
    (needle ≠ [] → ∀ j, OccursAt text needle j →
      j ∈ findAllOccurrences text needle) := by
  unfold findAllOccurrences
  split
  case isTrue h => exact ⟨List.chain'_nil, by simp, fun hne => absurd h hne⟩
  case isFalse h =>
    refine ⟨(findAllGo_sorted_sound text needle _ 0).1,
      fun x hx => ((findAllGo_sorted_sound text needle _ 0).2 x hx).2,
      fun _ j hj => ?_⟩
    have := occursAt_lt_length text needle j h hj
    exact findAllGo_complete text needle _ 0 j (Nat.zero_le _) (by omega) hj h

theorem C5_find_all_occurrences_amended_witness :
    OccursAt ("aba").data ("a").data 2 ∧
      2 ∈ findAllOccurrences ("aba").data ("a").data :=
  ⟨by decide,
   (C5_find_all_occurrences_amended ("aba").data ("a").data).2.2 (by decide) 2
     (by decide)⟩

/-- C5 (counterexample): on text `aaa` with needle `aa` the code returns the
overlapping offsets `[0, 1]`, so the returned matches are *not* spaced by at
least the needle length as the claim states. -/
theorem C5_overlapping_matches_counterexample :
    findAllOccurrences ("aaa").data ("aa").data = [0, 1] ∧
    ¬ List.Chain' (fun a b => a + ("aa").data.length ≤ b)
        (findAllOccurrences ("aaa").data ("aa").data) := by
  have h0 : findAllOccurrences ("aaa").data ("aa").data = [0, 1] := by decide
  refine ⟨h0, ?_⟩
  rw [h0]
  intro hch
  exact absurd (List.chain'_cons.mp hch).1 (by decide)

/-- C6: `replaceCurrent` on text `cat cat cat`, needle `cat`, replacement
`dog`, active match index 1, substitutes only the active match — the result
is `cat dog cat` — and the match list rebuilt against the new text has
length 2. -/
theorem C6_replace_current_scenario :
    (replaceCurrent
        ⟨("cat cat cat").data, ("cat").data, ("dog").data,
         findAllOccurrences ("cat cat cat").data ("cat").data, 1⟩).content
      = ("cat dog cat").data ∧
    (replaceCurrent
        ⟨("cat cat cat").data, ("cat").data, ("dog").data,
         findAllOccurrences ("cat cat cat").data ("cat").data, 1⟩).matchOffsets.length
      = 2 := by
  constructor
  · decide
  · decide

/-- C2: on the four-line scenario input the extractor returns exactly one
table with headers `Category`, `Count` and rows `A→10`, `B→5` (numeric
cells coerced to numbers, non-numeric cells kept as trimmed strings); and
in general a cell is stored as a number exactly when `Number` parses its
trimmed text, else as the trimmed string. -/
theorem C2_extract_scenario_and_coercion :
    extractTables ("| Category | Count |\n|---|---|\n| A | 10 |\n| B | 5 |").data
      = [⟨[("Category").data, ("Count").data],
          [[(("Category").data, Value.str ("A").data),
            (("Count").data, Value.num 10)],
           [(("Category").data, Value.str ("B").data),
            (("Count").data, Value.num 5)]],
          Option.none⟩] ∧
    (∀ cell q, jsNumber cell = some q → coerceCell cell = Value.num q) ∧
    (∀ cell, jsNumber cell = none → coerceCell cell = Value.str cell) := by
  refine ⟨by decide, ?_, ?_⟩
  · intro cell q h
    simp [coerceCell, h]
  · intro cell h
    simp [coerceCell, h]

theorem C2_extract_scenario_and_coercion_witness :
    jsNumber ("10").data = some 10 ∧ coerceCell ("10").data = Value.num 10 :=
  ⟨by decide, C2_extract_scenario_and_coercion.2.1 ("10").data 10 (by decide)⟩

theorem rowKeys_setKey_mem (r : RowRecord) (k : Str) (v : Value)
    (h : k ∈ rowKeys r) : rowKeys (setKey r k v) = rowKeys r := by
  induction r with
  | nil => exact absurd h (by simp [rowKeys])
  | cons hd tl ih =>
    obtain ⟨k', v'⟩ := hd
    by_cases hk : k' = k
    · show rowKeys (if k' = k then (k, v) :: tl else _) = _
      rw [if_pos hk]
      show k :: rowKeys tl = k' :: rowKeys tl
      rw [hk]
    · show rowKeys (if k' = k then _ else (k', v') :: setKey tl k v) = _
      rw [if_neg hk]
      show k' :: rowKeys (setKey tl k v) = k' :: rowKeys tl
      have hmem : k ∈ rowKeys tl := by
        rcases List.mem_cons.mp h with h1 | h2
        · exact absurd h1.symm hk
        · exact h2
      rw [ih hmem]

theorem rowKeys_setKey_not_mem (r : RowRecord) (k : Str) (v : Value)
    (h : k ∉ rowKeys r) : rowKeys (setKey r k v) = rowKeys r ++ [k] := by
  induction r with
  | nil => rfl
  | cons hd tl ih =>
    obtain ⟨k', v'⟩ := hd
    have hk : ¬ (k' = k) := fun e =>
      h (e ▸ List.mem_cons_self k' (rowKeys tl))
    show rowKeys (if k' = k then _ else (k', v') :: setKey tl k v) = _
    rw [if_neg hk]
    show k' :: rowKeys (setKey tl k v) = (k' :: rowKeys tl) ++ [k]
    have hmem : k ∉ rowKeys tl := fun hm =>
      h (List.mem_cons_of_mem _ hm)
    rw [ih hmem, List.cons_append]

theorem rowKeys_fold_mem (pairs : List (Str × Str)) :
    ∀ (acc : RowRecord) (h : Str),
      h ∈ rowKeys
          (pairs.foldl (fun a hc => setKey a hc.1 (coerceCell hc.2)) acc) ↔
        h ∈ rowKeys acc ∨ h ∈ pairs.map Prod.fst := by
  induction pairs with
  | nil => simp
  | cons p ps ih =>
    intro acc h
    simp only [List.foldl_cons, List.map_cons, List.mem_cons]
    rw [ih]
    by_cases hmem : p.1 ∈ rowKeys acc
    · rw [rowKeys_setKey_mem _ _ _ hmem]
      constructor
      · rintro (h1 | h2)
        · exact Or.inl h1
        · exact Or.inr (Or.inr h2)
      · rintro (h1 | h2 | h3)
        · exact Or.inl h1
        · exact Or.inl (h2 ▸ hmem)
        · exact Or.inr h3
    · rw [rowKeys_setKey_not_mem _ _ _ hmem]
      simp only [List.mem_append, List.mem_singleton]
      tauto

theorem rowKeys_fold_nodup (pairs : List (Str × Str)) :
    ∀ acc : RowRecord, (rowKeys acc).Nodup →
      (rowKeys
        (pairs.foldl (fun a hc => setKey a hc.1 (coerceCell hc.2)) acc)).Nodup := by
  induction pairs with
  | nil => intro acc h; simpa
  | cons p ps ih =>
    intro acc h
    simp only [List.foldl_cons]
    apply ih
    by_cases hmem : p.1 ∈ rowKeys acc
    · rwa [rowKeys_setKey_mem _ _ _ hmem]
    · rw [rowKeys_setKey_not_mem _ _ _ hmem, List.nodup_append]
      exact ⟨h, List.nodup_singleton _,
        fun x hx hx' => hmem ((List.mem_singleton.mp hx') ▸ hx)⟩

theorem rowKeys_buildRowRecord (headers cells : List Str)
    (hlen : headers.length ≤ cells.length) :
    (rowKeys (buildRowRecord headers cells)).Nodup ∧
      ∀ h, h ∈ rowKeys (buildRowRecord headers cells) ↔ h ∈ headers := by
  unfold buildRowRecord
  constructor
  · exact rowKeys_fold_nodup _ [] (by simp [rowKeys])
  · intro h
    rw [rowKeys_fold_mem, List.map_fst_zip headers cells hlen]
    simp [rowKeys]

theorem processTableMatch_rows (block : Str) (t : ExtractedTable)
    (hp : processTableMatch block = some t) :
    ∀ r ∈ t.rows, ∃ cells : List Str,
      cells.length = t.headers.length ∧ r = buildRowRecord t.headers cells := by
  simp only [processTableMatch] at hp
  split at hp
  case isTrue hlines =>
    cases hp
    intro r hr
    simp only [List.mem_filterMap] at hr
    obtain ⟨line, hline, hsome⟩ := hr
    split at hsome
    case isTrue hlen =>
      cases hsome
      exact ⟨parseCells line, hlen, rfl⟩
    case isFalse => exact absurd hsome (by simp)
  case isFalse => exact absurd hp (by simp)

/-- C3 (amended): every retained row record binds each *distinct* header
exactly once (keys without duplicates, with the same membership as the
header list), so the row length equals the header count whenever the
headers are pairwise distinct — with duplicate headers the later cell
overwrites the earlier one under the shared key.  Rows whose cell count
differs from the header count are silently dropped without affecting the
remaining rows or subsequent tables, as the second conjunct shows on a
document whose first table holds one short row. -/
theorem C3_row_record_invariant_amended :
    (∀ md t, t ∈ extractTables md → ∀ r ∈ t.rows,
        (rowKeys r).Nodup ∧ (∀ h, h ∈ rowKeys r ↔ h ∈ t.headers) ∧
        (t.headers.Nodup → r.length = t.headers.length)) ∧
    extractTables
        ("| A | B |\n|---|---|\n| 1 |\n| 2 | 3 |\n\n| C | D |\n|---|---|\n| 4 | 5 |").data
      = [⟨[("A").data, ("B").data],
          [[(("A").data, Value.num 2), (("B").data, Value.num 3)]],
          Option.none⟩,
         ⟨[("C").data, ("D").data],
          [[(("C").data, Value.num 4), (("D").data, Value.num 5)]],
          Option.none⟩] := by
  constructor
  · intro md t ht r hr
    obtain ⟨block, hb, hpb⟩ := List.mem_filterMap.mp ht
    obtain ⟨cells, hlen, rfl⟩ := processTableMatch_rows block t hpb r hr
    have hkeys := rowKeys_buildRowRecord t.headers cells (le_of_eq hlen.symm)
    refine ⟨hkeys.1, hkeys.2, ?_⟩
    intro hnd
    have hrl : (buildRowRecord t.headers cells).length
        = (rowKeys (buildRowRecord t.headers cells)).length := by
      simp [rowKeys]
    rw [hrl]
    exact ((List.perm_ext_iff_of_nodup hkeys.1 hnd).mpr hkeys.2).length_eq
  · decide

theorem C3_row_record_invariant_amended_witness :
    ⟨[("A").data], [[(("A").data, Value.num 7)]], Option.none⟩
        ∈ extractTables ("| A |\n|---|\n| 7 |").data ∧
      (rowKeys [(("A").data, Value.num 7)]).Nodup :=
  ⟨by decide,
   (C3_row_record_invariant_amended.1 ("| A |\n|---|\n| 7 |").data
      ⟨[("A").data], [[(("A").data, Value.num 7)]], Option.none⟩ (by decide)
      [(("A").data, Value.num 7)] (by decide)).1⟩

/-- C3 (counterexample): with the duplicate-header table `| A | A |` the
extracted row record holds a single property, so its length 1 differs from
the header count 2 — the claimed invariant fails as stated. -/
theorem C3_duplicate_header_row_length_counterexample :
    extractTables ("| A | A |\n|---|---|\n| 1 | 2 |").data
      = [⟨[("A").data, ("A").data], [[(("A").data, Value.num 2)]],
          Option.none⟩] ∧
    (((extractTables ("| A | A |\n|---|---|\n| 1 | 2 |").data).getD 0
        ⟨[], [], Option.none⟩).rows.getD 0 []).length ≠
      ((extractTables ("| A | A |\n|---|---|\n| 1 | 2 |").data).getD 0
        ⟨[], [], Option.none⟩).headers.length := by
  constructor
  · decide
  · decide

/-- C8 (counterexample): a table whose header row holds the duplicate
header `X` twice is *not* skipped — the extractor returns it. -/
theorem C8_duplicate_header_not_rejected_counterexample :
    (extractTables ("| X | X |\n|---|---|\n| 7 | 9 |").data).length = 1 ∧
    ((extractTables ("| X | X |\n|---|---|\n| 7 | 9 |").data).getD 0
        ⟨[], [], Option.none⟩).headers = [("X").data, ("X").data] := by
  constructor
  · decide
  · decide

/-- C8 (amended): the extractor performs no malformed-header rejection: a
duplicate header leaves the table in the output with both header entries
kept (the row record then collapses them onto one key, the later cell
winning), and a header cell that trims to empty is silently dropped from
the header list (here making every three-cell data row mismatch the two
retained headers, so the table survives with no rows) — in neither case is
the table skipped. -/
theorem C8_malformed_headers_amended :
    extractTables ("| X | X |\n|---|---|\n| 7 | 9 |").data
      = [⟨[("X").data, ("X").data], [[(("X").data, Value.num 9)]],
          Option.none⟩] ∧
    extractTables ("| A |  | B |\n|---|---|---|\n| 1 | 2 | 3 |").data
      = [⟨[("A").data, ("B").data], [], Option.none⟩] := by
  constructor
  · decide
  · decide

/-- C7 (code evaluation): on a document whose table is immediately preceded
by a well-formed `chart-options` comment, the extractor attaches no chart
options at all: the annotation regex is applied to the matched table text,
which starts at the table's first pipe and cannot contain the preceding
comment.  The second conjunct shows the very same annotation is found and
its JSON parsed when the search runs over the full document text, isolating
the slip to where the source searches. -/
theorem C7_preceding_annotation_not_attached :
    extractTables
        ("<!-- chart-options \x7b\"title\":\"T\"\x7d -->\n| A | B |\n|---|---|\n| 1 | 2 |").data
      = [⟨[("A").data, ("B").data],
          [[(("A").data, Value.num 1), (("B").data, Value.num 2)]],
          Option.none⟩] ∧
    (findChartOptionsGo
        ("<!-- chart-options \x7b\"title\":\"T\"\x7d -->\n| A | B |\n|---|---|\n| 1 | 2 |").data).bind
        parseFlatJson
      = some [(("title").data, JsonVal.jstr ("T").data)] := by
  constructor
  · decide
  · decide

set_option maxRecDepth 4000 in
/-- C1 (code evaluation): the export substitution never mutates the
authoritative Document text — the handler returns its state unchanged and
works on a scratch copy (first conjunct) — and the spec's one-table-mode /
one-chart-mode scenario does produce a literal pipe table followed by an
image block (second conjunct).  But the per-table contract fails when two
containers are both in chart mode with successful captures: after the first
replacement the table blocks are re-matched against the *mutated* scratch
text, so the second container's stored index 1 is out of range of the
shrunken match list, its table stays a literal pipe table, and its captured
image (101 `y`s) never appears in the output (third and fourth conjuncts). -/
theorem C1_export_substitution_skips_second_chart :
    (∀ s items, (handleExportDocx s items).2 = s) ∧
    exportSubstitute
        ("| A | B |\n|---|---|\n| 1 | 2 |\n\n| C | D |\n|---|---|\n| 3 | 4 |").data
        [⟨0, none⟩, ⟨1, some (List.replicate 101 'y')⟩]
      = ("| A | B |\n|---|---|\n| 1 | 2 |\n\n").data ++
          imageMarkdownFor (List.replicate 101 'y') ∧
    exportSubstitute
        ("| A | B |\n|---|---|\n| 1 | 2 |\n\n| C | D |\n|---|---|\n| 3 | 4 |").data
        [⟨0, some (List.replicate 101 'x')⟩, ⟨1, some (List.replicate 101 'y')⟩]
      = imageMarkdownFor (List.replicate 101 'x') ++
          ("\n\n| C | D |\n|---|---|\n| 3 | 4 |").data ∧
    jsIndexOf
        (exportSubstitute
          ("| A | B |\n|---|---|\n| 1 | 2 |\n\n| C | D |\n|---|---|\n| 3 | 4 |").data
          [⟨0, some (List.replicate 101 'x')⟩, ⟨1, some (List.replicate 101 'y')⟩])
        (List.replicate 101 'y') 0
      = none := by
  refine ⟨fun s items => rfl, ?_, ?_, ?_⟩
  · decide
  · decide
  · decide

/-- C4: the figure number of a mounted table — its `data-table-index`,
assigned once in document order when the preview mounts — and the table's
extracted data and static rendering are invariant under every sequence of
toggle events (table⇄chart switches, chart-kind changes, column
selections).  The toggle rewrites only its own view state, never the mount
context, so at most the view-mode presentation (the "Table N" vs "Chart N"
labelling) can differ across a toggle, never N itself. -/
theorem C4_toggle_preserves_figure_number (s : ToggleState)
    (ops : List ToggleOp) :
    (applyToggleOps s ops).tableIndex = s.tableIndex ∧
    (applyToggleOps s ops).tableData = s.tableData ∧
    (applyToggleOps s ops).tableHtml = s.tableHtml := by
  induction ops generalizing s with
  | nil => exact ⟨rfl, rfl, rfl⟩
  | cons op ops ih =>
    have hstep : (applyToggleOp s op).tableIndex = s.tableIndex ∧
        (applyToggleOp s op).tableData = s.tableData ∧
        (applyToggleOp s op).tableHtml = s.tableHtml := by
      cases op <;> simp [applyToggleOp]
    have hrest := ih (applyToggleOp s op)
    have hfold : applyToggleOps s (op :: ops)
        = applyToggleOps (applyToggleOp s op) ops := rfl
    rw [hfold]
    exact ⟨hrest.1.trans hstep.1, hrest.2.1.trans hstep.2.1,
      hrest.2.2.trans hstep.2.2⟩

/-- C10 (amended): the registry is append-only — a `ready` event pushes
exactly one entry, a timeout removes nothing, and any event trace only
appends — but the `__chartIndex` a container receives is computed 500ms
*after* its `ready` event as `length - 1` of the registry at that later
moment, so it names the most recently pushed entry overall, not necessarily
the entry pushed at that container's own `ready` event. -/
theorem C10_registry_append_only_amended :
    (∀ s c, (stepRegEvent s (RegEvent.chartReady c)).registry
        = s.registry ++ [⟨c⟩]) ∧
    (∀ s c, (stepRegEvent s (RegEvent.timeoutFire c)).registry
        = s.registry) ∧
    (∀ s c, (stepRegEvent s (RegEvent.timeoutFire c)).containerIdx c
        = Option.some
            (if s.registry.length = 0 then 0 else s.registry.length - 1)) ∧
    (∀ s es, ∃ t, (applyRegEvents s es).registry = s.registry ++ t) := by
  refine ⟨fun s c => rfl, fun s c => rfl, fun s c => by
    show (if c = c then _ else _) = _
    rw [if_pos rfl], ?_⟩
  intro s es
  induction es generalizing s with
  | nil => exact ⟨[], by simp [applyRegEvents]⟩
  | cons e es ih =>
    obtain ⟨t, ht⟩ := ih (stepRegEvent s e)
    have hfold : applyRegEvents s (e :: es)
        = applyRegEvents (stepRegEvent s e) es := rfl
    cases e with
    | chartReady c =>
      refine ⟨⟨c⟩ :: t, ?_⟩
      rw [hfold, ht]
      show s.registry ++ [⟨c⟩] ++ t = s.registry ++ (⟨c⟩ :: t)
      rw [List.append_assoc]
      rfl
    | timeoutFire c =>
      refine ⟨t, ?_⟩
      rw [hfold, ht]
      rfl

/-- C10 (counterexample): with two charts whose `ready` events both fire
before either 500ms deferred callback runs — the ordinary course when a
preview mounts two charts — container 0's stored `__chartIndex` is 1, the
registry slot filled by container 1's entry, while container 0's own entry
sits at index 0: the stored index does not refer to the entry pushed at
that container's `ready` event. -/
theorem C10_stale_chart_index_counterexample :
    (applyRegEvents initRegState
        [RegEvent.chartReady 0, RegEvent.chartReady 1,
         RegEvent.timeoutFire 0, RegEvent.timeoutFire 1]).containerIdx 0
      = Option.some 1 ∧
    ((applyRegEvents initRegState
        [RegEvent.chartReady 0, RegEvent.chartReady 1,
         RegEvent.timeoutFire 0, RegEvent.timeoutFire 1]).registry.map
        RegEntry.owner)
      = [0, 1] := by
  constructor
  · rfl
  · rfl

theorem jsRound_le (q : ℚ) : (jsRound q : ℚ) ≤ q + 1 / 2 := by
  unfold jsRound
  exact_mod_cast Int.floor_le (q + 1 / 2)

theorem lt_jsRound (q : ℚ) : q - 1 / 2 < (jsRound q : ℚ) := by
  unfold jsRound
  have h := Int.lt_floor_add_one (q + 1 / 2)
  have h' : q + 1 / 2 < (⌊q + 1 / 2⌋ : ℚ) + 1 := by exact_mod_cast h
  linarith

/-- C9: for positive natural pixel dimensions, the export dimensions never
exceed the 500×400 box, never upscale beyond the original width or height,
and preserve the aspect ratio up to the integer rounding of the recomputed
dimension (twice the cross-product error is at most the larger original
dimension, i.e. the error before rounding is at most one half). -/
theorem C9_chart_dimensions_bounds (ow oh : ℕ) (hw : 0 < ow) (hh : 0 < oh) :
    (calculateChartDimensions ow oh).1 ≤ 500 ∧
    (calculateChartDimensions ow oh).2 ≤ 400 ∧
    (calculateChartDimensions ow oh).1 ≤ (ow : ℤ) ∧
    (calculateChartDimensions ow oh).2 ≤ (oh : ℤ) ∧
    2 * |(calculateChartDimensions ow oh).2 * (ow : ℤ) -
          (calculateChartDimensions ow oh).1 * (oh : ℤ)|
      ≤ ((max ow oh : ℕ) : ℤ) := by
  have hA : (0 : ℚ) < (ow : ℚ) := by exact_mod_cast hw
  have hB : (0 : ℚ) < (oh : ℚ) := by exact_mod_cast hh
  have hAne : (ow : ℚ) ≠ 0 := ne_of_gt hA
  have hBne : (oh : ℚ) ≠ 0 := ne_of_gt hB
  have hcalc : calculateChartDimensions ow oh =
      if (400 : ℤ) <
          jsRound (((min (ow : ℤ) 500 : ℤ) : ℚ) * ((oh : ℚ) / (ow : ℚ)))
      then (jsRound (((400 : ℤ) : ℚ) * ((ow : ℚ) / (oh : ℚ))), (400 : ℤ))
      else (min (ow : ℤ) 500,
            jsRound (((min (ow : ℤ) 500 : ℤ) : ℚ) * ((oh : ℚ) / (ow : ℚ)))) :=
    rfl
  have hw1le : (min (ow : ℤ) 500) ≤ (ow : ℤ) := min_le_left _ _
  have hw1le5 : (min (ow : ℤ) 500) ≤ 500 := min_le_right _ _
  have hw1cast : ((min (ow : ℤ) 500 : ℤ) : ℚ) ≤ (ow : ℚ) := by
    exact_mod_cast hw1le
  have hq1le : ((min (ow : ℤ) 500 : ℤ) : ℚ) * ((oh : ℚ) / (ow : ℚ))
      ≤ (oh : ℚ) := by
    have h1 : ((min (ow : ℤ) 500 : ℤ) : ℚ) * ((oh : ℚ) / (ow : ℚ))
        ≤ (ow : ℚ) * ((oh : ℚ) / (ow : ℚ)) := by
      apply mul_le_mul_of_nonneg_right hw1cast
      positivity
    have h2 : (ow : ℚ) * ((oh : ℚ) / (ow : ℚ)) = (oh : ℚ) := by
      field_simp
    linarith
  have hq1A : ((min (ow : ℤ) 500 : ℤ) : ℚ) * ((oh : ℚ) / (ow : ℚ)) * (ow : ℚ)
      = ((min (ow : ℤ) 500 : ℤ) : ℚ) * (oh : ℚ) := by
    field_simp
  have hfl1 := jsRound_le (((min (ow : ℤ) 500 : ℤ) : ℚ) * ((oh : ℚ) / (ow : ℚ)))
  have hfl2 := lt_jsRound (((min (ow : ℤ) 500 : ℤ) : ℚ) * ((oh : ℚ) / (ow : ℚ)))
  rw [hcalc]
  by_cases hcase : (400 : ℤ) <
      jsRound (((min (ow : ℤ) 500 : ℤ) : ℚ) * ((oh : ℚ) / (ow : ℚ)))
  · rw [if_pos hcase]
    have hh1cast : (401 : ℚ) ≤
        ((jsRound (((min (ow : ℤ) 500 : ℤ) : ℚ) * ((oh : ℚ) / (ow : ℚ))) : ℤ) : ℚ) := by
      exact_mod_cast hcase
    have hq1ge : (801 : ℚ) / 2 ≤
        ((min (ow : ℤ) 500 : ℤ) : ℚ) * ((oh : ℚ) / (ow : ℚ)) := by
      linarith
    have hBge : (801 : ℚ) / 2 ≤ (oh : ℚ) := le_trans hq1ge hq1le
    have hoh401 : 401 ≤ oh := by
      have h2 : (801 : ℚ) ≤ 2 * (oh : ℚ) := by linarith
      have h3 : (801 : ℕ) ≤ 2 * oh := by exact_mod_cast h2
      omega
    have hB401 : (401 : ℚ) ≤ (oh : ℚ) := by exact_mod_cast hoh401
    have hfl3 := jsRound_le (((400 : ℤ) : ℚ) * ((ow : ℚ) / (oh : ℚ)))
    have hfl4 := lt_jsRound (((400 : ℤ) : ℚ) * ((ow : ℚ) / (oh : ℚ)))
    have hq2A : ((400 : ℤ) : ℚ) * ((ow : ℚ) / (oh : ℚ)) * (oh : ℚ)
        = 400 * (ow : ℚ) := by
      field_simp
    have hq2pos : 0 < ((400 : ℤ) : ℚ) * ((ow : ℚ) / (oh : ℚ)) := by positivity
    have hq2ltA : ((400 : ℤ) : ℚ) * ((ow : ℚ) / (oh : ℚ)) < (ow : ℚ) := by
      have hp1 : ((400 : ℤ) : ℚ) * ((ow : ℚ) / (oh : ℚ)) * 401
          ≤ ((400 : ℤ) : ℚ) * ((ow : ℚ) / (oh : ℚ)) * (oh : ℚ) :=
        mul_le_mul_of_nonneg_left hB401 hq2pos.le
      rw [hq2A] at hp1
      nlinarith
    have hw2leA : jsRound (((400 : ℤ) : ℚ) * ((ow : ℚ) / (oh : ℚ))) ≤ (ow : ℤ) := by
      have h1 : ((jsRound (((400 : ℤ) : ℚ) * ((ow : ℚ) / (oh : ℚ))) : ℤ) : ℚ)
          < (ow : ℚ) + 1 := by linarith
      have h2 : jsRound (((400 : ℤ) : ℚ) * ((ow : ℚ) / (oh : ℚ))) < (ow : ℤ) + 1 := by
        exact_mod_cast h1
      omega
    have h400oh : (400 : ℤ) ≤ (oh : ℤ) := by
      have h4 : (400 : ℕ) ≤ oh := by omega
      exact_mod_cast h4
    refine ⟨?_, le_refl _, hw2leA, h400oh, ?_⟩
    · by_cases how5 : ow ≤ 500
      · have : (ow : ℤ) ≤ 500 := by exact_mod_cast how5
        omega
      · have how5' : (500 : ℤ) ≤ (ow : ℤ) := by
          have : 500 ≤ ow := by omega
          exact_mod_cast this
        have hmin : min (ow : ℤ) 500 = 500 := min_eq_right how5'
        rw [hmin] at hq1ge hq1A
        have h1000 : 801 * (ow : ℚ) ≤ 1000 * (oh : ℚ) := by
          have hp2 : (801 : ℚ) / 2 * (ow : ℚ)
              ≤ ((500 : ℤ) : ℚ) * ((oh : ℚ) / (ow : ℚ)) * (ow : ℚ) :=
            mul_le_mul_of_nonneg_right hq1ge hA.le
          rw [hq1A] at hp2
          push_cast at hp2
          linarith
        have hstep : (((400 : ℤ) : ℚ) * ((ow : ℚ) / (oh : ℚ)) * 801) * (oh : ℚ)
            ≤ 400000 * (oh : ℚ) := by
          have : ((400 : ℤ) : ℚ) * ((ow : ℚ) / (oh : ℚ)) * 801 * (oh : ℚ)
              = 801 * (((400 : ℤ) : ℚ) * ((ow : ℚ) / (oh : ℚ)) * (oh : ℚ)) := by
            ring
          rw [this, hq2A]
          linarith
        have hq2le : ((400 : ℤ) : ℚ) * ((ow : ℚ) / (oh : ℚ)) * 801 ≤ 400000 :=
          le_of_mul_le_mul_right hstep hB
        have hw2lt : ((jsRound (((400 : ℤ) : ℚ) * ((ow : ℚ) / (oh : ℚ))) : ℤ) : ℚ)
            < 500 := by linarith
        have : jsRound (((400 : ℤ) : ℚ) * ((ow : ℚ) / (oh : ℚ))) < (500 : ℤ) := by
          exact_mod_cast hw2lt
        omega
    · have habs : |((jsRound (((400 : ℤ) : ℚ) * ((ow : ℚ) / (oh : ℚ))) : ℤ) : ℚ)
          - ((400 : ℤ) : ℚ) * ((ow : ℚ) / (oh : ℚ))| ≤ 1 / 2 :=
        abs_le.mpr ⟨by linarith, by linarith⟩
      have habs2 : |((jsRound (((400 : ℤ) : ℚ) * ((ow : ℚ) / (oh : ℚ))) : ℤ) : ℚ)
            * (oh : ℚ) - 400 * (ow : ℚ)| ≤ (oh : ℚ) / 2 := by
        have h1 : ((jsRound (((400 : ℤ) : ℚ) * ((ow : ℚ) / (oh : ℚ))) : ℤ) : ℚ)
              * (oh : ℚ) - 400 * (ow : ℚ)
            = (((jsRound (((400 : ℤ) : ℚ) * ((ow : ℚ) / (oh : ℚ))) : ℤ) : ℚ)
              - ((400 : ℤ) : ℚ) * ((ow : ℚ) / (oh : ℚ))) * (oh : ℚ) := by
          rw [sub_mul, hq2A]
        rw [h1, abs_mul, abs_of_pos hB]
        calc |((jsRound (((400 : ℤ) : ℚ) * ((ow : ℚ) / (oh : ℚ))) : ℤ) : ℚ)
              - ((400 : ℤ) : ℚ) * ((ow : ℚ) / (oh : ℚ))| * (oh : ℚ)
            ≤ 1 / 2 * (oh : ℚ) := by
              apply mul_le_mul_of_nonneg_right habs hB.le
          _ = (oh : ℚ) / 2 := by ring
      have hQ : 2 * |(400 : ℚ) * (ow : ℚ)
          - ((jsRound (((400 : ℤ) : ℚ) * ((ow : ℚ) / (oh : ℚ))) : ℤ) : ℚ)
            * (oh : ℚ)| ≤ (oh : ℚ) := by
        rw [abs_sub_comm]
        linarith
      have hZ : 2 * |(400 : ℤ) * (ow : ℤ)
          - jsRound (((400 : ℤ) : ℚ) * ((ow : ℚ) / (oh : ℚ))) * (oh : ℤ)|
          ≤ (oh : ℤ) := by
        have := hQ
        push_cast at this ⊢
        exact_mod_cast this
      have hmax : (oh : ℤ) ≤ ((max ow oh : ℕ) : ℤ) := by
        exact_mod_cast Nat.le_max_right ow oh
      calc 2 * |(400 : ℤ) * (ow : ℤ)
            - jsRound (((400 : ℤ) : ℚ) * ((ow : ℚ) / (oh : ℚ))) * (oh : ℤ)|
          ≤ (oh : ℤ) := hZ
        _ ≤ ((max ow oh : ℕ) : ℤ) := hmax
  · rw [if_neg hcase]
    have hh1le : jsRound (((min (ow : ℤ) 500 : ℤ) : ℚ) * ((oh : ℚ) / (ow : ℚ)))
        ≤ 400 := by omega
    have hh1leB : jsRound (((min (ow : ℤ) 500 : ℤ) : ℚ) * ((oh : ℚ) / (ow : ℚ)))
        ≤ (oh : ℤ) := by
      have h1 : ((jsRound (((min (ow : ℤ) 500 : ℤ) : ℚ) * ((oh : ℚ) / (ow : ℚ))) : ℤ) : ℚ)
          < (oh : ℚ) + 1 := by linarith
      have h2 : jsRound (((min (ow : ℤ) 500 : ℤ) : ℚ) * ((oh : ℚ) / (ow : ℚ)))
          < (oh : ℤ) + 1 := by exact_mod_cast h1
      omega
    refine ⟨hw1le5, hh1le, hw1le, hh1leB, ?_⟩
    have habs : |((jsRound (((min (ow : ℤ) 500 : ℤ) : ℚ) * ((oh : ℚ) / (ow : ℚ))) : ℤ) : ℚ)
        - ((min (ow : ℤ) 500 : ℤ) : ℚ) * ((oh : ℚ) / (ow : ℚ))| ≤ 1 / 2 :=
      abs_le.mpr ⟨by linarith, by linarith⟩
    have habs2 : |((jsRound (((min (ow : ℤ) 500 : ℤ) : ℚ) * ((oh : ℚ) / (ow : ℚ))) : ℤ) : ℚ)
          * (ow : ℚ) - ((min (ow : ℤ) 500 : ℤ) : ℚ) * (oh : ℚ)| ≤ (ow : ℚ) / 2 := by
      have h1 : ((jsRound (((min (ow : ℤ) 500 : ℤ) : ℚ) * ((oh : ℚ) / (ow : ℚ))) : ℤ) : ℚ)
            * (ow : ℚ) - ((min (ow : ℤ) 500 : ℤ) : ℚ) * (oh : ℚ)
          = (((jsRound (((min (ow : ℤ) 500 : ℤ) : ℚ) * ((oh : ℚ) / (ow : ℚ))) : ℤ) : ℚ)
            - ((min (ow : ℤ) 500 : ℤ) : ℚ) * ((oh : ℚ) / (ow : ℚ))) * (ow : ℚ) := by
        rw [sub_mul, hq1A]
      rw [h1, abs_mul, abs_of_pos hA]
      calc |((jsRound (((min (ow : ℤ) 500 : ℤ) : ℚ) * ((oh : ℚ) / (ow : ℚ))) : ℤ) : ℚ)
            - ((min (ow : ℤ) 500 : ℤ) : ℚ) * ((oh : ℚ) / (ow : ℚ))| * (ow : ℚ)
          ≤ 1 / 2 * (ow : ℚ) := by
            apply mul_le_mul_of_nonneg_right habs hA.le
        _ = (ow : ℚ) / 2 := by ring
    have hZ : 2 * |jsRound (((min (ow : ℤ) 500 : ℤ) : ℚ) * ((oh : ℚ) / (ow : ℚ)))
          * (ow : ℤ) - (min (ow : ℤ) 500) * (oh : ℤ)| ≤ (ow : ℤ) := by
      have hQ : 2 * |((jsRound (((min (ow : ℤ) 500 : ℤ) : ℚ) * ((oh : ℚ) / (ow : ℚ))) : ℤ) : ℚ)
            * (ow : ℚ) - ((min (ow : ℤ) 500 : ℤ) : ℚ) * (oh : ℚ)| ≤ (ow : ℚ) := by
        linarith
      push_cast at hQ ⊢
      exact_mod_cast hQ
    have hmax : (ow : ℤ) ≤ ((max ow oh : ℕ) : ℤ) := by
      exact_mod_cast Nat.le_max_left ow oh
    calc 2 * |jsRound (((min (ow : ℤ) 500 : ℤ) : ℚ) * ((oh : ℚ) / (ow : ℚ)))
          * (ow : ℤ) - (min (ow : ℤ) 500) * (oh : ℤ)|
        ≤ (ow : ℤ) := hZ
      _ ≤ ((max ow oh : ℕ) : ℤ) := hmax

theorem C9_chart_dimensions_bounds_witness :
    0 < 1000 ∧ 0 < 800 ∧
    ((calculateChartDimensions 1000 800).1 ≤ 500 ∧
     (calculateChartDimensions 1000 800).2 ≤ 400 ∧
     (calculateChartDimensions 1000 800).1 ≤ ((1000 : ℕ) : ℤ) ∧
     (calculateChartDimensions 1000 800).2 ≤ ((800 : ℕ) : ℤ) ∧
     2 * |(calculateChartDimensions 1000 800).2 * ((1000 : ℕ) : ℤ) -
           (calculateChartDimensions 1000 800).1 * ((800 : ℕ) : ℤ)|
       ≤ ((max 1000 800 : ℕ) : ℤ)) :=
  ⟨by decide, by decide,
   C9_chart_dimensions_bounds 1000 800 (by decide) (by decide)⟩
